import Mathlib

/-!
Verification of the `hypothesis.extra.ghostwriter` module (file
`src/hypothesis-python/src/hypothesis/extra/ghostwriter.py`) against its
natural-language specification.  The Python code is shallowly embedded:
pure string manipulation is translated to executable Lean functions on
`String`/`List Char`, Python dicts become association lists with
insert-or-overwrite semantics, sets become duplicate-free lists, and the
external collaborators (the strategy library, the `black` formatter, the
ambient `builtins` namespace and the Python expression compiler) are
modelled from the specification as explicit parameters or small
definitions marked as such.
-/

/-! ## Basic string machinery (modelling Python's `str` operations) -/

/-- Code-point comparison of characters, as Python compares strings. -/
def charLt (a b : Char) : Bool := a.toNat < b.toNat

/-- Lexicographic order on character lists (Python string comparison). -/
def lexLe : List Char → List Char → Bool
  | [], _ => true
  | _ :: _, [] => false
  | a :: as, b :: bs => if charLt a b then true else if charLt b a then false else lexLe as bs

/-- Python's `<=` on strings: lexicographic by code point. -/
def strLe (a b : String) : Bool := lexLe a.data b.data

/-- Python's `needle in hay` substring test. -/
def containsList (needle : List Char) : List Char → Bool
  | [] => needle.isEmpty
  | c :: rest => needle.isPrefixOf (c :: rest) || containsList needle rest

/-- Python's `sub in s` substring containment on strings. -/
def strContains (s sub : String) : Bool := containsList sub.data s.data

/-- Python's `str.count`: non-overlapping occurrences, scanning left to
right.  The fuel argument (instantiated with the haystack length, which
each step strictly exceeds the consumed amount of) keeps the recursion
structural so the definition computes by kernel reduction. -/
def countSubGo (pat : List Char) : Nat → List Char → Nat
  | 0, _ => 0
  | _, [] => 0
  | f + 1, c :: rest =>
    if pat ≠ [] ∧ pat.isPrefixOf (c :: rest) then
      1 + countSubGo pat f ((c :: rest).drop pat.length)
    else
      countSubGo pat f rest

/-- Python's `str.count` on character lists. -/
def countSub (pat hay : List Char) : Nat := countSubGo pat hay.length hay

/-- Python's `s.count(pat)` for strings. -/
def countSubStr (s pat : String) : Nat := countSub pat.data s.data

/-- Python's `s.replace(pat, rep)` scanning left to right, non-overlapping
(for a non-empty pattern, the only way it is used here).  Fuelled like
`countSubGo` so that it computes by kernel reduction. -/
def replaceGo (pat rep : List Char) : Nat → List Char → List Char
  | 0, l => l
  | _, [] => []
  | f + 1, c :: rest =>
    if pat ≠ [] ∧ pat.isPrefixOf (c :: rest) then
      rep ++ replaceGo pat rep f ((c :: rest).drop pat.length)
    else
      c :: replaceGo pat rep f rest

/-- Python's `s.replace(pat, rep)` on character lists. -/
def replaceChars (pat rep hay : List Char) : List Char := replaceGo pat rep hay.length hay

/-- Python's `s.replace(pat, rep)` on strings. -/
def replaceAll (s pat rep : String) : String := ⟨replaceChars pat.data rep.data s.data⟩

/-- `textwrap.indent(text, "    ")`: prefix every line that holds more than
whitespace with four spaces. -/
def indent4 (s : String) : String :=
  String.intercalate "\n"
    ((s.splitOn "\n").map (fun l => if l.trim = "" then l else "    " ++ l))

/-- Python `str.title()`: the first letter of every alphabetic run is
uppercased and the rest lowercased. -/
def titleAux : Bool → List Char → List Char
  | _, [] => []
  | startWord, c :: rest =>
    if c.isAlpha then
      (if startWord then c.toUpper else c.toLower) :: titleAux false rest
    else
      c :: titleAux true rest

/-- Python `s.title()` on strings. -/
def pyTitle (s : String) : String := ⟨titleAux true s.data⟩

/-! ## Sets and dicts (modelling Python `set` and insertion-ordered `dict`) -/

/-- Python `set.add`: append unless already present (iteration order of
Python sets is arbitrary; only membership and cardinality are relied on). -/
def setAdd (s : List String) (x : String) : List String :=
  if x ∈ s then s else s ++ [x]

/-- Python dict assignment `d[k] = v`: overwrite in place if the key exists
(keeping its position), else append. -/
def insertKV {α : Type} (d : List (String × α)) (k : String) (v : α) : List (String × α) :=
  match d with
  | [] => [(k, v)]
  | (k0, v0) :: rest => if k0 = k then (k, v) :: rest else (k0, v0) :: insertKV rest k v

/-- Python dict lookup `d.get(k)`. -/
def lookupKV {α : Type} (k : String) : List (String × α) → Option α
  | [] => none
  | (k0, v0) :: rest => if k0 = k then some v0 else lookupKV k rest

/-- The keys of the dict built by repeatedly inserting a list of names:
each name kept at its first occurrence, skipping those already seen. -/
def dedupNew (seen : List String) : List String → List String
  | [] => []
  | n :: ns => if n ∈ seen then dedupNew seen ns else n :: dedupNew (seen ++ [n]) ns

/-- Python `sorted` over `dict.items()`: stable sort of key-value pairs;
keys are unique here, so comparison by key alone matches tuple comparison. -/
def sortPairs {α : Type} (l : List (String × α)) : List (String × α) :=
  List.insertionSort (fun a b => strLe a.1 b.1 = true) l

/-- Python `sorted` over a list of module names. -/
def sortStrings (l : List String) : List String :=
  List.insertionSort (fun a b => strLe a b = true) l

/-! ## The Strategy value model

Modelled from the spec: a Strategy is "an opaque, side-effect-free
description of how to produce a value" supporting a canonical textual
representation, a union combinator, and sentinels; "two strategies are
considered equal iff their canonical textual representations are equal".
The constructors below are exactly the strategy expressions the
ghostwriter source builds (`st.text()`, `st.booleans()`,
`st.sampled_from(...)`, `st.just(...)`, `st.integers(min_value=0)`,
`st.floats()`, `st.functions()`, `st.iterables(...)`, `st.nothing()`, the
`infer` sentinel, type-directed `from_type` resolution, and `one_of`
unions). -/
inductive Strategy where
  | infer : Strategy
  | booleans : Strategy
  | text : Strategy
  | floats : Strategy
  | functions : Strategy
  | nothing : Strategy
  | integers : Strategy
  | integersMin (n : Int) : Strategy
  | sampledFrom (enumName : String) : Strategy
  | just (valueRepr : String) : Strategy
  | iterables (s : Strategy) : Strategy
  | fromType (typeName : String) : Strategy
  | oneOf (ss : List Strategy) : Strategy

mutual

/-- Modelled from the spec: the canonical textual representation (Python
`repr`) of a strategy value, as the external strategy library prints it. -/
def Strategy.render : Strategy → String
  | .infer => "infer"
  | .booleans => "booleans()"
  | .text => "text()"
  | .floats => "floats()"
  | .functions => "functions()"
  | .nothing => "nothing()"
  | .integers => "integers()"
  | .integersMin n => "integers(min_value=" ++ toString n ++ ")"
  | .sampledFrom e => "sampled_from(" ++ e ++ ")"
  | .just v => "just(" ++ v ++ ")"
  | .iterables s => "iterables(" ++ s.render ++ ")"
  | .fromType t => "from_type(" ++ t ++ ")"
  | .oneOf ss => "one_of(" ++ String.intercalate ", " (Strategy.renderList ss) ++ ")"

/-- Renders of a list of strategies. -/
def Strategy.renderList : List Strategy → List String
  | [] => []
  | s :: ss => s.render :: Strategy.renderList ss

end

/-- Whether a strategy is a `one_of` union (Python `isinstance(v, OneOfStrategy)`). -/
def Strategy.isUnion : Strategy → Bool
  | .oneOf _ => true
  | _ => false

mutual

/-- Modelled from the spec: `OneOfStrategy.element_strategies`, the
recursively flattened branch list of a union ("nested unions must be
flattened into one union, never unions-of-unions"). A non-union strategy
is its own single element. -/
def Strategy.elements : Strategy → List Strategy
  | .oneOf ss => Strategy.elementsList ss
  | s => [s]

/-- Flattened elements of a list of strategies. -/
def Strategy.elementsList : List Strategy → List Strategy
  | [] => []
  | s :: ss => s.elements ++ Strategy.elementsList ss

end

/-- The ghostwriter's own flattening step: `st.one_of(v.element_strategies)`
applied when the incoming strategy is a union, the identity otherwise. -/
def flattenTop (s : Strategy) : Strategy :=
  match s with
  | .oneOf ss => .oneOf (Strategy.elementsList ss)
  | s => s

/-- Modelled from the spec: the union combinator `a | b` of the external
strategy library, whose canonical text is the flattened union of the two
sides (the spec requires union reprs to be flattened, never nested). -/
def orStrat (a b : Strategy) : Strategy :=
  .oneOf (a.elements ++ b.elements)

/-! ## Parameters and callables (`inspect.Parameter`, `inspect.signature`) -/

/-- The five Python parameter kinds. -/
inductive ParamKind where
  | positionalOnly : ParamKind
  | positionalOrKeyword : ParamKind
  | keywordOnly : ParamKind
  | varPositional : ParamKind
  | varKeyword : ParamKind
deriving DecidableEq

/-- `inspect.Parameter.VAR_POSITIONAL` / `VAR_KEYWORD`. -/
def isVarKind : ParamKind → Bool
  | .varPositional => true
  | .varKeyword => true
  | _ => false

/-- A parameter's annotation slot: `inspect.Parameter.empty` or a type. -/
inductive Annot where
  | empty : Annot
  | type (name : String) : Annot
deriving DecidableEq

/-- A parameter's default slot: `inspect.Parameter.empty`, a `bool`, an
`enum.Enum` member (carrying its enum type's name), or any other value
(carrying its repr). -/
inductive Default where
  | empty : Default
  | boolVal (b : Bool) : Default
  | enumMember (enumName : String) : Default
  | otherVal (valueRepr : String) : Default
deriving DecidableEq

/-- One `inspect.Parameter`. -/
structure Param where
  name : String
  kind : ParamKind
  annot : Annot
  default : Default
deriving DecidableEq

/-- A callable with an introspectable signature: `__qualname__`,
`__module__`, and its ordered parameters.  (The ufunc arity fallback of
`_get_params` synthesizes exactly such a list of positional-only
parameters, so it is covered by this shape.) -/
structure Func where
  name : String
  module : String
  params : List Param
deriving DecidableEq

/-! ## `_GUESS_STRATEGIES_BY_NAME` and `_strategy_for` -/

/-- The fixed name-to-strategy lookup table `_GUESS_STRATEGIES_BY_NAME`. -/
def guessTable : List (Strategy × List String) :=
  [(.text, ["name", "filename", "fname"]),
   (.integersMin 0, ["index"]),
   (.floats, ["real", "imag"]),
   (.functions, ["function", "func", "f"]),
   (orStrat (.iterables .integers) (.iterables .text), ["iterable"])]

/-- The table scan `for strategy, names in _GUESS_STRATEGIES_BY_NAME: if
param.name in names: return strategy`. -/
def guessLookup : List (Strategy × List String) → String → Option Strategy
  | [], _ => none
  | (s, names) :: rest, n => if n ∈ names then some s else guessLookup rest n

/-- `_strategy_for`: annotation wins (returning the `infer` sentinel), then
bool default, then enum default, then any other default, then the name
heuristics, else `st.nothing()`. -/
def _strategy_for (p : Param) : Strategy :=
  match p.annot with
  | .type _ => .infer
  | .empty =>
    match p.default with
    | .boolVal _ => .booleans
    | .enumMember e => .sampledFrom e
    | .otherVal v => .just v
    | .empty =>
      if strContains p.name "string" ∧ ¬ (strContains p.name "as") then .text
      else
        match guessLookup guessTable p.name with
        | some s => s
        | none => .nothing

/-- The type named by a parameter's annotation (empty string if absent). -/
def annotType (p : Param) : String :=
  match p.annot with
  | .type t => t
  | .empty => ""

/-- Modelled from the spec: `st.builds(f, **builder_args)` resolves the
`infer` sentinel through type-directed inference ("signatures with the
same annotation resolve identically"); every other strategy passes through
unchanged.  The unwrapping of `.wrapped_strategy`/`.mapped_strategy` in
`_get_strategies` recovers exactly these per-parameter strategies. -/
def buildsResolve (p : Param) : Strategy :=
  match _strategy_for p with
  | .infer => .fromType (annotType p)
  | s => s

/-! ## `_get_params` and `_get_strategies` -/

/-- `_get_params`: the non-vararg parameters of a callable as an ordered
dict keyed by name (`OrderedDict((p.name, p) for p in params if p.kind not
in var_param_kinds)`). -/
def _get_params (f : Func) : List (String × Param) :=
  (f.params.filter (fun p => ¬ isVarKind p.kind)).foldl
    (fun d p => insertKV d p.name p) []

/-- One callable's parameters, each paired with its resolved strategy, the
incoming value flattened when it is a union (`if isinstance(v,
OneOfStrategy): v = st.one_of(v.element_strategies)`). -/
def strategyPairs (f : Func) : List (String × Strategy) :=
  (_get_params f).map (fun kv => (kv.1, flattenTop (buildsResolve kv.2)))

/-- One callable's contribution to the merge loop of `_get_strategies`.
In pipeline mode, every callable after the first loses its first
parameter via `del params[next(iter(params))]`; on an empty parameter
dict `next(iter(params))` raises `StopIteration`, modelled as `none`. -/
def funcPairs (passResult : Bool) (i : Nat) (f : Func) : Option (List (String × Strategy)) :=
  if passResult ∧ 1 ≤ i then
    match _get_params f with
    | [] => none
    | _ :: tl => some (tl.map (fun kv => (kv.1, flattenTop (buildsResolve kv.2))))
  else some (strategyPairs f)

/-- The conflict rule of `_get_strategies`: keep the incoming strategy when
its repr matches what is already recorded (or nothing is recorded, since
`given_strategies.get(k, v)` then compares `v` with itself), else replace
the entry with the union of old and new. -/
def mergeStep (given : List (String × Strategy)) (kv : String × Strategy) :
    List (String × Strategy) :=
  match lookupKV kv.1 given with
  | some old =>
    if old.render ≠ kv.2.render then insertKV given kv.1 (orStrat old kv.2)
    else insertKV given kv.1 kv.2
  | none => insertKV given kv.1 kv.2

/-- The concatenated (name, strategy) pairs of all enumerated callables,
`none` as soon as one callable's pipeline drop raises `StopIteration`. -/
def collectPairs (passResult : Bool) : List (Nat × Func) → Option (List (String × Strategy))
  | [] => some []
  | p :: rest =>
    match funcPairs passResult p.1 p.2, collectPairs passResult rest with
    | some ps, some qs => some (ps ++ qs)
    | _, _ => none

/-- The tail of `_get_strategies` once all pairs are collected: merge with
union-on-conflict, then order by the single callable's declaration order
when there is exactly one callable, else sort by parameter name. -/
def strategiesFromPairs (funcs : List Func) (pairs : List (String × Strategy)) :
    List (String × Strategy) :=
  let given := pairs.foldl mergeStep []
  match funcs with
  | [f] => (_get_params f).filterMap (fun kv => (lookupKV kv.1 given).map (fun v => (kv.1, v)))
  | _ => sortPairs given

/-- `_get_strategies`, with its error path explicit: `none` exactly when a
callable after the first has no non-vararg parameter in pipeline mode
(the `StopIteration` from `del params[next(iter(params))]`). -/
def _get_strategiesE (passResult : Bool) (funcs : List Func) :
    Option (List (String × Strategy)) :=
  match collectPairs passResult funcs.enum with
  | none => none
  | some pairs => some (strategiesFromPairs funcs pairs)

/-- The Given-Spec produced by `_get_strategies` on the inputs where it
does not raise (in particular everywhere outside pipeline mode, where
`collectPairs` never fails); a total projection of `_get_strategiesE`
used by the theorems that already restrict to non-raising inputs. -/
def _get_strategies (passResult : Bool) (funcs : List Func) : List (String × Strategy) :=
  (_get_strategiesE passResult funcs).getD []

/-! ## `_valid_syntax_repr` -/

/-- `_valid_syntax_repr`: special-case the text strategy, strip the
`Decimal` filter artifact, then return the repr if it compiles as an
expression and the literal `"nothing()"` otherwise.  The Python expression
compiler is external; it is passed in as the oracle `compilesOk`. -/
def _valid_syntax_repr (compilesOk : String → Bool) (s : Strategy) : String :=
  match s with
  | .text => "text()"
  | s =>
    let r := replaceAll s.render ".filter(_can_hash)" ""
    if compilesOk r then r else "nothing()"

/-! ## Exception types, reduction and rendering -/

/-- An exception type: its `__qualname__` and defining `__module__`.  The
subclass relation `issubclass` of the ambient class hierarchy is passed
around explicitly as a boolean relation. -/
structure Exc where
  qualname : String
  module : String
deriving DecidableEq

/-- All ordered pairs of elements at distinct positions, in the order
`itertools.permutations(l, 2)` yields them. -/
def perm2 {α : Type} (l : List α) : List (α × α) :=
  l.enum.flatMap (fun ia =>
    l.enum.filterMap (fun jb => if ia.1 = jb.1 then none else some (ia.2, jb.2)))

/-- The deduplication loop of `_make_test_body`: `uniques = list(except_)`,
then for every ordered pair `(a, b)` of distinct positions, remove `a`
(first occurrence) if it is still present and `issubclass(a, b)`. -/
def reduceExceptions (sub : Exc → Exc → Bool) (except_ : List Exc) : List Exc :=
  (perm2 except_).foldl
    (fun uniques ab =>
      if ab.1 ∈ uniques ∧ sub ab.1 ab.2 then uniques.erase ab.1 else uniques)
    except_

/-- `_get_qualname`: the qualified name with angle brackets replaced by
underscores, optionally prefixed with the defining module. -/
def _get_qualname (name module : String) (includeModule : Bool) : String :=
  let qname := replaceAll (replaceAll name "<" "_") ">" "_"
  if includeModule then module ++ "." ++ qname else qname

/-- The string-conversion loop over the reduced exception list: a survivor
whose `__qualname__` is in `dir(builtins)` renders as its bare qualname;
any other survivor's module is added to the import set and it renders
fully qualified.  `builtinsDir` is the ambient `dir(builtins)` listing. -/
def renderExceptions (builtinsDir : List String) (acc : List String × List String)
    (uniques : List Exc) : List String × List String :=
  uniques.foldl
    (fun st ex =>
      if ex.qualname ∈ builtinsDir then (st.1, st.2 ++ [ex.qualname])
      else (setAdd st.1 ex.module, st.2 ++ [_get_qualname ex.qualname ex.module true]))
    acc

/-- The except-clause text: parenthesized comma-joined tuple for two or
more names, else `exceptions[0]` — which raises `IndexError` (here `none`)
on an empty list. -/
def exceptClause (exceptions : List String) : Option String :=
  if 1 < exceptions.length then
    some ("(" ++ String.intercalate ", " exceptions ++ ")")
  else exceptions.head?

/-! ## `_write_call`, `_make_test_body`, `_make_test`, `magic` -/

/-- Output style: `"pytest"` or `"unittest"`. -/
inductive Style where
  | pytest : Style
  | unittest : Style
deriving DecidableEq

/-- `_write_call`: render a call with the given variable names bound in
order; a parameter without a bound variable is passed as its own name, and
non-positional-only parameters are rendered as `name=value`. -/
def _write_call (f : Func) (passVariables : List String) : String :=
  let ps := (_get_params f).map Prod.snd
  let args := String.intercalate ", "
    (ps.enum.map (fun ip =>
      let v := ((passVariables.get? ip.1).getD "")
      let vn := if v = "" then ip.2.name else v
      match ip.2.kind with
      | .positionalOnly => vn
      | _ => ip.2.name ++ "=" ++ vn))
  _get_qualname f.name f.module true ++ "(" ++ args ++ ")"

/-- The test-function name slug: `"_".join(_get_qualname(f).replace(".", "_"))`. -/
def funcNameSlug (funcs : List Func) : String :=
  String.intercalate "_" (funcs.map (fun f => replaceAll (_get_qualname f.name f.module false) "." "_"))

/-- `_make_test_body`: compute the Given-Spec, wrap the body in a
suppression block when exceptions are supplied (after subclass reduction
and rendering), then bind everything into the `TEMPLATE`, wrapping once
more into a TestCase class for unittest style.  Returns `none` exactly
when rendering the except-clause hits `exceptions[0]` on an empty list. -/
def _make_test_body (compilesOk : String → Bool) (stAll builtinsDir : List String)
    (sub : Exc → Exc → Bool) (funcs : List Func) (ghost : String) (testBody0 : String)
    (except_ : List Exc) (style : Style) : Option (List String × String) :=
  match _get_strategiesE (ghost = "idempotent" ∨ ghost = "roundtrip") funcs with
  | none => none
  | some given =>
    let givenArgs0 := String.intercalate ", "
      (given.map (fun kv => kv.1 ++ "=" ++ _valid_syntax_repr compilesOk kv.2))
    let givenArgs := stAll.foldl
      (fun s name => replaceAll s (name ++ "(") ("st." ++ name ++ "(")) givenArgs0
    let imports0 := funcs.foldl (fun s f => setAdd s f.module) []
    let wrapped : Option (List String × String) :=
      if except_.isEmpty then some (imports0, testBody0)
      else
        let uniques := reduceExceptions sub except_
        let ie := renderExceptions builtinsDir (imports0, []) uniques
        match exceptClause ie.2 with
        | none => none
        | some clause =>
          some (ie.1, "try:\n" ++ indent4 testBody0 ++ "\nexcept " ++ clause ++ ":\n    reject()\n")
    match wrapped with
    | none => none
    | some iw =>
      let argnames := (if style = .unittest then ["self"] else []) ++ given.map Prod.fst
      let body := "\n@given(" ++ givenArgs ++ ")\ndef test_" ++ ghost ++ "_" ++
        funcNameSlug funcs ++ "(" ++ String.intercalate ", " argnames ++ "):\n" ++
        indent4 iw.2 ++ "\n"
      if style = .unittest then
        some (setAdd iw.1 "unittest",
          "class Test" ++ pyTitle ghost ++
          String.intercalate "" (funcs.map (fun f =>
            pyTitle (replaceAll (_get_qualname f.name f.module false) "." ""))) ++
          "(unittest.TestCase):\n" ++ indent4 body)
      else some (iw.1, body)

/-- The fixed attribution header `IMPORT_SECTION`, with one import line per
sorted module and `reject` imported iff the body calls it. -/
def importSectionHeader (imports : List String) (body : String) : String :=
  "\n# This test code was written by the `hypothesis.extra.ghostwriter` module\n" ++
  "# and is provided under the Creative Commons Zero public domain dedication.\n\n" ++
  String.intercalate "" ((sortStrings imports).map (fun imp => "import " ++ imp ++ "\n")) ++
  "from hypothesis import given, " ++
  (if strContains body "        reject()\n" then "reject, " else "") ++
  "strategies as st\n"

/-- The advisory appended to the header: the singular TODO line when
`body.count("=st.nothing()")` is exactly one, the pluralized line when it
is at least one (hence at least two, the singular case having fired
first), nothing otherwise. -/
def advisoryHeader (header body : String) : String :=
  let nothings := countSubStr body "=st.nothing()"
  if nothings = 1 then
    header ++ "# TODO: replace st.nothing() with an appropriate strategy\n\n"
  else if 1 ≤ nothings then
    header ++ "# TODO: replace st.nothing() with appropriate strategies\n\n"
  else header

/-- Modelled from the spec: the external `black` formatter is a black box
that canonicalizes already-valid source text; the spec requires formatting
to be idempotent on the emitted output, so it is modelled as the identity
on the assembled text. -/
def blackFormatStr (s : String) : String := s

/-- `_make_test`: strip `builtins.`/`__main__.` qualifiers, discard those
imports, build the header plus advisories, and format the result. -/
def _make_test (imports : List String) (body : String) : String :=
  let body := replaceAll (replaceAll body "builtins." "") "__main__." ""
  let imports := (imports.filter (fun i => i ≠ "builtins")).filter (fun i => i ≠ "__main__")
  let header := importSectionHeader imports body
  blackFormatStr (advisoryHeader header body ++ body)

/-- The fuzz test unit `magic` writes for one callable:
`_make_test_body(f, test_body=_write_call(f), except_=except_, ghost="fuzz",
style=style)`. -/
def magicUnit (compilesOk : String → Bool) (stAll builtinsDir : List String)
    (sub : Exc → Exc → Bool) (except_ : List Exc) (style : Style) (f : Func) :
    Option (List String × String) :=
  _make_test_body compilesOk stAll builtinsDir sub [f] "fuzz" (_write_call f [])
    except_ style

/-- `magic` restricted to callable arguments (module expansion is an
excluded collaborator): dedup the callables (Python `set`), fail when two
share a display name, else write one fuzz test per callable in
lexicographic name order.  Returns the import set and the list of test
units; `_make_test` then concatenates them. -/
def magicCore (compilesOk : String → Bool) (stAll builtinsDir : List String)
    (sub : Exc → Exc → Bool) (funcs : List Func) (except_ : List Exc) (style : Style) :
    Except String (List String × List String) :=
  if funcs.isEmpty then .error "Must pass at least one function or module to test."
  else
    let functions := funcs.dedup
    let byName := functions.foldl (fun d f => insertKV d (_get_qualname f.name f.module false) f) []
    if byName.length < functions.length then
      .error "Functions to magic() test must have unique names"
    else
      (sortPairs byName).foldlM
        (fun acc nf =>
          match magicUnit compilesOk stAll builtinsDir sub except_ style nf.2 with
          | some ib => .ok (ib.1.foldl setAdd acc.1, acc.2 ++ [ib.2])
          | none => .error "IndexError") (([], []) : List String × List String)

/-- `magic` end to end: the assembled units passed through `_make_test`. -/
def magic (compilesOk : String → Bool) (stAll builtinsDir : List String)
    (sub : Exc → Exc → Bool) (funcs : List Func) (except_ : List Exc) (style : Style) :
    Except String String :=
  (magicCore compilesOk stAll builtinsDir sub funcs except_ style).map
    (fun ip => _make_test ip.1 (String.intercalate "\n" ip.2))

/-! ## Order facts about `strLe` (needed for sortedness of generated output) -/

theorem charLt_iff (a b : Char) : charLt a b = true ↔ a.toNat < b.toNat := by
  simp [charLt]

theorem lexLe_total : ∀ (a b : List Char), lexLe a b = true ∨ lexLe b a = true
  | [], _ => Or.inl rfl
  | _ :: _, [] => Or.inr rfl
  | a :: as, b :: bs => by
    by_cases hab : charLt a b = true
    · left
      simp [lexLe, hab]
    · by_cases hba : charLt b a = true
      · right
        simp [lexLe, hba]
      · have h := lexLe_total as bs
        simp only [lexLe, hab, hba, if_false, Bool.false_eq_true] at *
        exact h

theorem lexLe_trans : ∀ (a b c : List Char),
    lexLe a b = true → lexLe b c = true → lexLe a c = true
  | [], _, _, _, _ => rfl
  | _ :: _, [], _, hab, _ => by simp [lexLe] at hab
  | _ :: _, _ :: _, [], _, hbc => by simp [lexLe] at hbc
  | a :: as, b :: bs, c :: cs, hab, hbc => by
    simp only [lexLe] at hab hbc ⊢
    simp only [charLt_iff] at hab hbc ⊢
    by_cases h1 : a.toNat < b.toNat
    · by_cases h2 : b.toNat < c.toNat
      · rw [if_pos (Nat.lt_trans h1 h2)]
      · rw [if_neg h2] at hbc
        by_cases h3 : c.toNat < b.toNat
        · rw [if_pos h3] at hbc
          exact absurd hbc (by simp)
        · rw [if_neg h3] at hbc
          rw [if_pos (show a.toNat < c.toNat by omega)]
    · rw [if_neg h1] at hab
      by_cases h1b : b.toNat < a.toNat
      · rw [if_pos h1b] at hab
        exact absurd hab (by simp)
      · rw [if_neg h1b] at hab
        by_cases h2 : b.toNat < c.toNat
        · rw [if_pos (show a.toNat < c.toNat by omega)]
        · rw [if_neg h2] at hbc
          by_cases h3 : c.toNat < b.toNat
          · rw [if_pos h3] at hbc
            exact absurd hbc (by simp)
          · rw [if_neg h3] at hbc
            rw [if_neg (show ¬ a.toNat < c.toNat by omega),
              if_neg (show ¬ c.toNat < a.toNat by omega)]
            exact lexLe_trans as bs cs hab hbc

theorem strLe_total (a b : String) : strLe a b = true ∨ strLe b a = true :=
  lexLe_total a.data b.data

theorem strLe_trans (a b c : String) (h1 : strLe a b = true) (h2 : strLe b c = true) :
    strLe a c = true :=
  lexLe_trans a.data b.data c.data h1 h2

instance pairKeyTotal {α : Type} : IsTotal (String × α) (fun a b => strLe a.1 b.1 = true) :=
  ⟨fun a b => strLe_total a.1 b.1⟩

instance pairKeyTrans {α : Type} : IsTrans (String × α) (fun a b => strLe a.1 b.1 = true) :=
  ⟨fun a b c => strLe_trans a.1 b.1 c.1⟩

/-! ## Dict lemmas -/

theorem lookupKV_insertKV_self {α : Type} (d : List (String × α)) (k : String) (v : α) :
    lookupKV k (insertKV d k v) = some v := by
  induction d with
  | nil => simp [insertKV, lookupKV]
  | cons hd tl ih =>
    by_cases h : hd.1 = k
    · simp [insertKV, h, lookupKV]
    · simp [insertKV, h, lookupKV, ih]

theorem lookupKV_insertKV_ne {α : Type} (d : List (String × α)) (k k0 : String) (v : α)
    (hne : k0 ≠ k) : lookupKV k0 (insertKV d k v) = lookupKV k0 d := by
  have hkk0 : k ≠ k0 := Ne.symm hne
  induction d with
  | nil => simp [insertKV, lookupKV, hkk0]
  | cons hd tl ih =>
    by_cases h : hd.1 = k
    · have h2 : hd.1 ≠ k0 := by rw [h]; exact hkk0
      simp [insertKV, h, lookupKV, hkk0, h2]
    · simp only [insertKV, h, if_false, lookupKV]
      by_cases h2 : hd.1 = k0
      · simp [h2]
      · simp [h2, ih]

theorem lookupKV_isSome_iff {α : Type} (d : List (String × α)) (k : String) :
    (lookupKV k d).isSome = true ↔ k ∈ d.map Prod.fst := by
  induction d with
  | nil => simp [lookupKV]
  | cons hd tl ih =>
    by_cases h : hd.1 = k
    · simp [lookupKV, h]
    · simp [lookupKV, h, ih, Ne.symm h]

theorem keys_insertKV {α : Type} (d : List (String × α)) (k : String) (v : α) :
    (insertKV d k v).map Prod.fst =
      if k ∈ d.map Prod.fst then d.map Prod.fst else d.map Prod.fst ++ [k] := by
  induction d with
  | nil => simp [insertKV]
  | cons hd tl ih =>
    by_cases h : hd.1 = k
    · simp [insertKV, h]
    · simp only [insertKV, h, if_false, List.map_cons]
      rw [ih]
      by_cases h2 : k ∈ tl.map Prod.fst
      · simp [h2, Ne.symm h]
      · simp [h2, Ne.symm h]

theorem lookupKV_eq_some_mem {α : Type} (d : List (String × α)) (k : String) (v : α)
    (h : lookupKV k d = some v) : (k, v) ∈ d := by
  induction d with
  | nil => simp [lookupKV] at h
  | cons hd tl ih =>
    obtain ⟨k0, v0⟩ := hd
    by_cases h1 : k0 = k
    · simp only [lookupKV, h1, if_true, Option.some.injEq] at h
      subst h1
      subst h
      exact List.mem_cons_self _ _
    · simp only [lookupKV, h1, if_false] at h
      exact List.mem_cons_of_mem _ (ih h)

theorem lookupKV_of_mem_nodup {α : Type} (d : List (String × α)) (k : String) (v : α)
    (hnd : (d.map Prod.fst).Nodup) (h : (k, v) ∈ d) : lookupKV k d = some v := by
  induction d with
  | nil => simp at h
  | cons hd tl ih =>
    simp only [List.map_cons, List.nodup_cons] at hnd
    rcases List.mem_cons.mp h with heq | hmem
    · rw [← heq]
      simp [lookupKV]
    · have hne : hd.1 ≠ k := by
        intro hk
        exact hnd.1 (hk ▸ (List.mem_map.mpr ⟨(k, v), hmem, rfl⟩))
      simp [lookupKV, hne, ih hnd.2 hmem]

theorem lookupKV_perm {α : Type} (d1 d2 : List (String × α)) (k : String)
    (hnd : (d1.map Prod.fst).Nodup) (hp : d1.Perm d2) : lookupKV k d1 = lookupKV k d2 := by
  have hnd2 : (d2.map Prod.fst).Nodup := ((hp.map Prod.fst).nodup_iff).mp hnd
  cases h1 : lookupKV k d1 with
  | some v =>
    exact (lookupKV_of_mem_nodup d2 k v hnd2 (hp.mem_iff.mp (lookupKV_eq_some_mem d1 k v h1))).symm
  | none =>
    cases h2 : lookupKV k d2 with
    | none => rfl
    | some v =>
      have := lookupKV_of_mem_nodup d1 k v hnd (hp.mem_iff.mpr (lookupKV_eq_some_mem d2 k v h2))
      rw [h1] at this
      exact absurd this (by simp)

/-! ## `dedupNew` lemmas -/

theorem mem_dedupNew_imp (seen ns : List String) (x : String) (h : x ∈ dedupNew seen ns) :
    x ∈ ns ∧ x ∉ seen := by
  induction ns generalizing seen with
  | nil => simp [dedupNew] at h
  | cons n rest ih =>
    simp only [dedupNew] at h
    by_cases hn : n ∈ seen
    · rw [if_pos hn] at h
      have := ih seen h
      exact ⟨List.mem_cons_of_mem _ this.1, this.2⟩
    · rw [if_neg hn] at h
      rcases List.mem_cons.mp h with heq | hmem
      · exact ⟨heq ▸ List.mem_cons_self n rest, heq ▸ hn⟩
      · have := ih (seen ++ [n]) hmem
        exact ⟨List.mem_cons_of_mem _ this.1,
          fun hx => this.2 (List.mem_append.mpr (Or.inl hx))⟩

theorem dedupNew_nodup (seen ns : List String) : (dedupNew seen ns).Nodup := by
  induction ns generalizing seen with
  | nil => simp [dedupNew]
  | cons n rest ih =>
    simp only [dedupNew]
    by_cases hn : n ∈ seen
    · rw [if_pos hn]
      exact ih seen
    · rw [if_neg hn]
      refine List.nodup_cons.mpr ⟨fun hmem => ?_, ih (seen ++ [n])⟩
      exact (mem_dedupNew_imp _ _ _ hmem).2 (List.mem_append.mpr (Or.inr (List.mem_singleton.mpr rfl)))

theorem mem_dedupNew_of_mem (seen ns : List String) (x : String)
    (hx : x ∈ ns) (hs : x ∉ seen) : x ∈ dedupNew seen ns := by
  induction ns generalizing seen with
  | nil => simp at hx
  | cons n rest ih =>
    simp only [dedupNew]
    by_cases hn : n ∈ seen
    · rw [if_pos hn]
      rcases List.mem_cons.mp hx with heq | hmem
      · exact absurd (heq ▸ hn) hs
      · exact ih seen hmem hs
    · rw [if_neg hn]
      rcases List.mem_cons.mp hx with heq | hmem
      · exact heq ▸ List.mem_cons_self _ _
      · by_cases hxn : x = n
        · exact hxn ▸ List.mem_cons_self _ _
        · exact List.mem_cons_of_mem _
            (ih (seen ++ [n]) hmem (by simp [hs, hxn]))

theorem dedupNew_of_nodup (seen ns : List String) (hnd : ns.Nodup)
    (hdisj : ∀ x ∈ ns, x ∉ seen) : dedupNew seen ns = ns := by
  induction ns generalizing seen with
  | nil => rfl
  | cons n rest ih =>
    simp only [dedupNew]
    rw [if_neg (hdisj n (List.mem_cons_self n rest))]
    have hnd' := List.nodup_cons.mp hnd
    congr 1
    refine ih (seen ++ [n]) hnd'.2 (fun x hx => ?_)
    intro hmem
    rcases List.mem_append.mp hmem with h | h
    · exact hdisj x (List.mem_cons_of_mem _ hx) h
    · exact hnd'.1 ((List.mem_singleton.mp h) ▸ hx)

theorem dedupNew_length_le (seen ns : List String) : (dedupNew seen ns).length ≤ ns.length := by
  induction ns generalizing seen with
  | nil => simp [dedupNew]
  | cons n rest ih =>
    simp only [dedupNew]
    by_cases hn : n ∈ seen
    · rw [if_pos hn]
      exact Nat.le_trans (ih seen) (Nat.le_succ _)
    · rw [if_neg hn]
      simpa using Nat.succ_le_succ (ih (seen ++ [n]))

theorem dedupNew_length_lt_of_seen (seen ns : List String) (x : String)
    (hx : x ∈ ns) (hs : x ∈ seen) : (dedupNew seen ns).length < ns.length := by
  induction ns generalizing seen with
  | nil => simp at hx
  | cons n rest ih =>
    simp only [dedupNew]
    by_cases hn : n ∈ seen
    · rw [if_pos hn]
      exact Nat.lt_succ_of_le (dedupNew_length_le seen rest)
    · rw [if_neg hn]
      have hxr : x ∈ rest := by
        rcases List.mem_cons.mp hx with heq | hmem
        · exact absurd (heq ▸ hs) hn
        · exact hmem
      have : x ∈ seen ++ [n] := List.mem_append.mpr (Or.inl hs)
      simpa using Nat.succ_lt_succ (ih _ hxr this)

theorem dedupNew_length_lt_of_dup (seen ns : List String) (hnd : ¬ ns.Nodup) :
    (dedupNew seen ns).length < ns.length := by
  induction ns generalizing seen with
  | nil => exact absurd List.nodup_nil hnd
  | cons n rest ih =>
    simp only [dedupNew]
    by_cases hn : n ∈ seen
    · rw [if_pos hn]
      exact Nat.lt_succ_of_le (dedupNew_length_le seen rest)
    · rw [if_neg hn]
      by_cases hmem : n ∈ rest
      · simpa using Nat.succ_lt_succ
          (dedupNew_length_lt_of_seen (seen ++ [n]) rest n hmem (by simp))
      · have hrest : ¬ rest.Nodup := by
          intro hr
          exact hnd (List.nodup_cons.mpr ⟨hmem, hr⟩)
        simpa using Nat.succ_lt_succ (ih _ hrest)

/-! ## Folds of insert-like steps (dict-building loops) -/

theorem keys_foldl_insertLike {α β : Type} (st : List (String × α) → β → List (String × α))
    (κ : β → String) (hstep : ∀ d x, ∃ v, st d x = insertKV d (κ x) v) :
    ∀ (xs : List β) (d : List (String × α)),
      (xs.foldl st d).map Prod.fst = d.map Prod.fst ++ dedupNew (d.map Prod.fst) (xs.map κ) := by
  intro xs
  induction xs with
  | nil => intro d; simp [dedupNew]
  | cons x rest ih =>
    intro d
    obtain ⟨v, hv⟩ := hstep d x
    simp only [List.foldl_cons, List.map_cons, dedupNew, hv]
    by_cases hmem : κ x ∈ d.map Prod.fst
    · rw [if_pos hmem, ih, keys_insertKV, if_pos hmem]
    · rw [if_neg hmem, ih, keys_insertKV, if_neg hmem, List.append_assoc]
      simp

theorem lookup_foldl_insertLike_not_mem {α β : Type}
    (st : List (String × α) → β → List (String × α)) (κ : β → String)
    (hstep : ∀ d x, ∃ v, st d x = insertKV d (κ x) v) :
    ∀ (xs : List β) (d : List (String × α)) (k : String), k ∉ xs.map κ →
      lookupKV k (xs.foldl st d) = lookupKV k d := by
  intro xs
  induction xs with
  | nil => intro d k _; rfl
  | cons x rest ih =>
    intro d k hk
    simp only [List.map_cons, List.mem_cons, not_or] at hk
    obtain ⟨v, hv⟩ := hstep d x
    simp only [List.foldl_cons, hv]
    rw [ih _ _ (by simpa using hk.2), lookupKV_insertKV_ne _ _ _ _ hk.1]

theorem lookup_foldl_insertLike_fresh {α β : Type}
    (st : List (String × α) → β → List (String × α)) (κ : β → String) (ν : β → α)
    (hstep : ∀ d x, ∃ v, st d x = insertKV d (κ x) v)
    (hstep0 : ∀ d x, lookupKV (κ x) d = none → st d x = insertKV d (κ x) (ν x)) :
    ∀ (xs : List β) (d : List (String × α)) (x : β), (xs.map κ).Nodup → x ∈ xs →
      lookupKV (κ x) d = none → lookupKV (κ x) (xs.foldl st d) = some (ν x) := by
  intro xs
  induction xs with
  | nil => intro d x _ hx; simp at hx
  | cons y rest ih =>
    intro d x hnd hx hfresh
    simp only [List.map_cons, List.nodup_cons] at hnd
    rcases List.mem_cons.mp hx with heq | hmem
    · subst heq
      simp only [List.foldl_cons, hstep0 d x hfresh]
      rw [lookup_foldl_insertLike_not_mem st κ hstep rest _ _ hnd.1]
      exact lookupKV_insertKV_self d (κ x) (ν x)
    · have hne : κ x ≠ κ y := by
        intro h
        exact hnd.1 (h ▸ List.mem_map.mpr ⟨x, hmem, rfl⟩)
      obtain ⟨v, hv⟩ := hstep d y
      simp only [List.foldl_cons, hv]
      exact ih _ x hnd.2 hmem (by rw [lookupKV_insertKV_ne _ _ _ _ hne]; exact hfresh)

theorem insertKV_not_mem_append {α : Type} (d : List (String × α)) (k : String) (v : α)
    (hk : k ∉ d.map Prod.fst) : insertKV d k v = d ++ [(k, v)] := by
  induction d with
  | nil => rfl
  | cons hd tl ih =>
    simp only [List.map_cons, List.mem_cons, not_or] at hk
    simp [insertKV, Ne.symm hk.1, ih hk.2]

theorem foldl_insertKV_of_fresh {α β : Type} (κ : β → String) (ν : β → α) :
    ∀ (xs : List β) (d : List (String × α)), (xs.map κ).Nodup →
      (∀ x ∈ xs, κ x ∉ d.map Prod.fst) →
      xs.foldl (fun d x => insertKV d (κ x) (ν x)) d = d ++ xs.map (fun x => (κ x, ν x)) := by
  intro xs
  induction xs with
  | nil => intro d _ _; simp
  | cons x rest ih =>
    intro d hnd hfresh
    simp only [List.map_cons, List.nodup_cons] at hnd
    have hins : insertKV d (κ x) (ν x) = d ++ [(κ x, ν x)] :=
      insertKV_not_mem_append d (κ x) (ν x) (hfresh x (List.mem_cons_self _ _))
    simp only [List.foldl_cons, hins, List.map_cons]
    rw [ih _ hnd.2 (fun y hy => ?_), List.append_assoc]
    · simp
    · simp only [List.map_append, List.mem_append]
      push_neg
      constructor
      · exact hfresh y (List.mem_cons_of_mem _ hy)
      · simp only [List.map_cons, List.map_nil, List.mem_singleton]
        intro h
        exact hnd.1 (h ▸ List.mem_map.mpr ⟨y, hy, rfl⟩)

/-! ## Claims about `_strategy_for` (C2, C6) and `_valid_syntax_repr` (C10) -/

theorem guessLookup_concrete (n : String) :
    guessLookup guessTable n = none ∨
    guessLookup guessTable n = some .text ∨
    guessLookup guessTable n = some (.integersMin 0) ∨
    guessLookup guessTable n = some .floats ∨
    guessLookup guessTable n = some .functions ∨
    guessLookup guessTable n = some (orStrat (.iterables .integers) (.iterables .text)) := by
  simp only [guessTable, guessLookup]
  repeat' split
  all_goals simp

/-- Claim C2: strategy inference returns the defer-to-type-inference
sentinel `infer` exactly when the parameter carries an annotation; in
particular every annotated parameter defers regardless of its default,
and the default- and name-based rules never produce the sentinel. -/
theorem annotated_param_defers_to_infer (p : Param) :
    _strategy_for p = Strategy.infer ↔ p.annot ≠ Annot.empty := by
  cases hp : p.annot with
  | type t => simp [_strategy_for, hp]
  | empty =>
    simp only [hp, ne_eq, not_true_eq_false, iff_false]
    cases hd : p.default with
    | boolVal b => simp [_strategy_for, hp, hd]
    | enumMember e => simp [_strategy_for, hp, hd]
    | otherVal v => simp [_strategy_for, hp, hd]
    | empty =>
      simp only [_strategy_for, hp, hd]
      split
      · simp
      · rcases guessLookup_concrete p.name with h | h | h | h | h | h <;>
          simp [h, orStrat]

/-- Witness for C2 at a concrete annotated parameter with a boolean default. -/
theorem annotated_param_defers_to_infer_witness :
    _strategy_for ⟨"x", .positionalOrKeyword, .type "int", .boolVal true⟩ = Strategy.infer :=
  (annotated_param_defers_to_infer ⟨"x", .positionalOrKeyword, .type "int", .boolVal true⟩).mpr
    (by simp)

/-- Counterexample for C6: the claim says the name-table match is
case-insensitive, so the unannotated defaultless parameter `Index` would
get the non-negative-integers strategy; the code matches case-sensitively
and returns `nothing()` instead. -/
theorem name_table_case_insensitive_refuted :
    _strategy_for ⟨"Index", .positionalOrKeyword, .empty, .empty⟩ = Strategy.nothing ∧
    _strategy_for ⟨"Index", .positionalOrKeyword, .empty, .empty⟩ ≠ Strategy.integersMin 0 :=
  ⟨rfl, fun h => Strategy.noConfusion h⟩

/-- Claim C6 (amended): for parameters with no annotation and no default,
a name containing `string` (with no `as` substring anywhere) yields the
text strategy; the lookup table is matched by case-sensitive exact
equality, so `index` yields non-negative integers while `Index` and
`INDEX` fall through to `nothing()`. -/
theorem name_heuristics_case_sensitive (p : Param) (hann : p.annot = Annot.empty)
    (hdef : p.default = Default.empty) :
    (strContains p.name "string" = true → strContains p.name "as" = false →
      _strategy_for p = Strategy.text) ∧
    (p.name = "index" → _strategy_for p = Strategy.integersMin 0) ∧
    (p.name = "Index" → _strategy_for p = Strategy.nothing) ∧
    (p.name = "INDEX" → _strategy_for p = Strategy.nothing) := by
  refine ⟨fun h1 h2 => ?_, fun h => ?_, fun h => ?_, fun h => ?_⟩
  · simp [_strategy_for, hann, hdef, h1, h2]
  · obtain ⟨n, k, a, d⟩ := p
    simp only at hann hdef h
    subst hann hdef h
    rfl
  · obtain ⟨n, k, a, d⟩ := p
    simp only at hann hdef h
    subst hann hdef h
    rfl
  · obtain ⟨n, k, a, d⟩ := p
    simp only at hann hdef h
    subst hann hdef h
    rfl

/-- Witness for the amended C6 at concrete parameter names. -/
theorem name_heuristics_case_sensitive_witness :
    _strategy_for ⟨"big_string", .positionalOrKeyword, .empty, .empty⟩ = Strategy.text ∧
    _strategy_for ⟨"index", .positionalOrKeyword, .empty, .empty⟩ = Strategy.integersMin 0 ∧
    _strategy_for ⟨"INDEX", .positionalOrKeyword, .empty, .empty⟩ = Strategy.nothing :=
  ⟨(name_heuristics_case_sensitive ⟨"big_string", .positionalOrKeyword, .empty, .empty⟩
      rfl rfl).1 rfl rfl,
   (name_heuristics_case_sensitive ⟨"index", .positionalOrKeyword, .empty, .empty⟩
      rfl rfl).2.1 rfl,
   (name_heuristics_case_sensitive ⟨"INDEX", .positionalOrKeyword, .empty, .empty⟩
      rfl rfl).2.2.2 rfl⟩

/-- Claim C10: whatever strategy is rendered into the `@given` decorator,
the emitted text compiles as an expression: the renderer checks the repr
with the expression compiler and falls back to the literal `"nothing()"`;
the oracle `compilesOk` stands for the external Python compiler, which is
only assumed to accept the two fixed literals `"text()"` and
`"nothing()"`. -/
theorem given_args_always_compile (compilesOk : String → Bool) (s : Strategy)
    (htext : compilesOk "text()" = true) (hnothing : compilesOk "nothing()" = true) :
    compilesOk (_valid_syntax_repr compilesOk s) = true := by
  cases s
  case text => exact htext
  all_goals
    simp only [_valid_syntax_repr]
    split
    · assumption
    · exact hnothing

/-- Witness for C10 at a concrete oracle and strategy. -/
theorem given_args_always_compile_witness :
    (fun r : String => true) (_valid_syntax_repr (fun r : String => true) Strategy.nothing)
      = true :=
  given_args_always_compile (fun r : String => true) Strategy.nothing rfl rfl

/-! ## Claim about the TODO advisory (C8) -/

/-- Claim C8: the emitted header carries no advisory when the body has no
occurrence of `=st.nothing()`, the singular TODO line when it has exactly
one, and the pluralized TODO line when it has two or more. -/
theorem nothing_advisory_cases (imports : List String) (body : String) :
    (countSubStr body "=st.nothing()" = 0 →
      advisoryHeader (importSectionHeader imports body) body = importSectionHeader imports body) ∧
    (countSubStr body "=st.nothing()" = 1 →
      advisoryHeader (importSectionHeader imports body) body =
        importSectionHeader imports body ++
          "# TODO: replace st.nothing() with an appropriate strategy\n\n") ∧
    (2 ≤ countSubStr body "=st.nothing()" →
      advisoryHeader (importSectionHeader imports body) body =
        importSectionHeader imports body ++
          "# TODO: replace st.nothing() with appropriate strategies\n\n") := by
  refine ⟨fun h0 => ?_, fun h1 => ?_, fun h2 => ?_⟩ <;> simp only [advisoryHeader]
  · rw [if_neg (by omega), if_neg (by omega)]
  · rw [if_pos h1]
  · rw [if_neg (by omega), if_pos (by omega)]

/-- Witness for C8: concrete bodies with zero, one and two occurrences. -/
theorem nothing_advisory_cases_witness :
    advisoryHeader (importSectionHeader [] "f(x)") "f(x)" = importSectionHeader [] "f(x)" ∧
    advisoryHeader (importSectionHeader [] "x=st.nothing()") "x=st.nothing()" =
      importSectionHeader [] "x=st.nothing()" ++
        "# TODO: replace st.nothing() with an appropriate strategy\n\n" ∧
    advisoryHeader (importSectionHeader [] "x=st.nothing(), y=st.nothing()")
        "x=st.nothing(), y=st.nothing()" =
      importSectionHeader [] "x=st.nothing(), y=st.nothing()" ++
        "# TODO: replace st.nothing() with appropriate strategies\n\n" :=
  ⟨(nothing_advisory_cases [] "f(x)").1 rfl,
   (nothing_advisory_cases [] "x=st.nothing()").2.1 rfl,
   (nothing_advisory_cases [] "x=st.nothing(), y=st.nothing()").2.2 (by decide)⟩

/-! ## Claims about exception-set reduction and rendering (C3, C5, C9) -/

theorem mem_perm2 {α : Type} (l : List α) (ab : α × α) (h : ab ∈ perm2 l) :
    ∃ (i j : Nat), i ≠ j ∧ l[i]? = some ab.1 ∧ l[j]? = some ab.2 := by
  simp only [perm2, List.mem_flatMap, List.mem_filterMap] at h
  obtain ⟨ia, hia, jb, hjb, hif⟩ := h
  by_cases hij : ia.1 = jb.1
  · rw [if_pos hij] at hif
    exact absurd hif (by simp)
  · rw [if_neg hij] at hif
    have heq := Option.some.inj hif
    refine ⟨ia.1, jb.1, hij, ?_, ?_⟩
    · rw [List.mem_enum_iff_getElem?.mp hia]
      exact congrArg some (congrArg Prod.fst heq)
    · rw [List.mem_enum_iff_getElem?.mp hjb]
      exact congrArg some (congrArg Prod.snd heq)

theorem perm2_ne_of_nodup {α : Type} (l : List α) (hnd : l.Nodup) (ab : α × α)
    (h : ab ∈ perm2 l) : ab.1 ≠ ab.2 := by
  obtain ⟨i, j, hij, hi, hj⟩ := mem_perm2 l ab h
  intro heq
  apply hij
  refine List.getElem?_inj ?_ hnd (hi.trans ?_)
  · exact (List.getElem?_eq_some_iff.mp hi).1
  · rw [hj, heq]

theorem foldl_no_removal (sub : Exc → Exc → Bool) :
    ∀ (ps : List (Exc × Exc)) (u : List Exc), (∀ p ∈ ps, sub p.1 p.2 = false) →
    ps.foldl (fun uniques ab =>
      if ab.1 ∈ uniques ∧ sub ab.1 ab.2 then uniques.erase ab.1 else uniques) u = u := by
  intro ps
  induction ps with
  | nil => intro u _; rfl
  | cons p rest ih =>
    intro u h
    simp only [List.foldl_cons]
    rw [if_neg (fun hc => by
      have := h p (List.mem_cons_self _ _)
      rw [this] at hc
      exact absurd hc.2 (by simp))]
    exact ih u (fun q hq => h q (List.mem_cons_of_mem _ hq))

/-- Claim C3: exception-set reduction is a fixed point on every
already-reduced duplicate-free set (no element a strict subclass of
another), and it reduces the pair `[A, B]`, where `B` is a strict
subclass of `A`, to `[A]`. -/
theorem reduceExceptions_idempotent_and_pair (sub : Exc → Exc → Bool) (l : List Exc)
    (hnd : l.Nodup) (hred : ∀ a ∈ l, ∀ b ∈ l, a ≠ b → sub a b = false)
    (A B : Exc) (hne : A ≠ B) (hBA : sub B A = true) (hAB : sub A B = false) :
    reduceExceptions sub l = l ∧ reduceExceptions sub [A, B] = [A] := by
  constructor
  · refine foldl_no_removal sub (perm2 l) l (fun p hp => ?_)
    obtain ⟨i, j, _, hi, hj⟩ := mem_perm2 l p hp
    exact hred p.1 (List.getElem?_mem hi) p.2 (List.getElem?_mem hj)
      (perm2_ne_of_nodup l hnd p hp)
  · have hperm : perm2 [A, B] = [(A, B), (B, A)] := rfl
    simp only [reduceExceptions, hperm, List.foldl_cons, List.foldl_nil]
    have h1 : (if A ∈ [A, B] ∧ sub A B = true then [A, B].erase A else [A, B]) = [A, B] := by
      rw [if_neg]
      intro hc
      rw [hAB] at hc
      exact absurd hc.2 (by simp)
    rw [h1, if_pos ⟨by simp, hBA⟩]
    simp [List.erase_cons, hne]

/-- Witness for C3: a concrete three-type hierarchy in which `OSError`
strictly subclasses `Exception` and `KeyError` is unrelated. -/
theorem reduceExceptions_idempotent_and_pair_witness :
    reduceExceptions
      (fun a b => a == b || (a == (⟨"OSError", "builtins"⟩ : Exc) && b == (⟨"Exception", "builtins"⟩ : Exc)))
      [⟨"Exception", "builtins"⟩, ⟨"KeyError", "builtins"⟩]
      = [⟨"Exception", "builtins"⟩, ⟨"KeyError", "builtins"⟩] ∧
    reduceExceptions
      (fun a b => a == b || (a == (⟨"OSError", "builtins"⟩ : Exc) && b == (⟨"Exception", "builtins"⟩ : Exc)))
      [⟨"Exception", "builtins"⟩, ⟨"OSError", "builtins"⟩] = [⟨"Exception", "builtins"⟩] :=
  reduceExceptions_idempotent_and_pair _
    [⟨"Exception", "builtins"⟩, ⟨"KeyError", "builtins"⟩]
    (by decide) (by decide)
    ⟨"Exception", "builtins"⟩ ⟨"OSError", "builtins"⟩
    (by decide) (by decide) (by decide)

/-- The rendered name of a reduced survivor: bare qualname when it is a
standard builtin, else fully qualified. -/
def renderExcName (builtinsDir : List String) (e : Exc) : String :=
  if e.qualname ∈ builtinsDir then e.qualname else _get_qualname e.qualname e.module true

theorem renderExceptions_snd (builtinsDir : List String) (uniques : List Exc) :
    ∀ acc : List String × List String,
      (renderExceptions builtinsDir acc uniques).2 = acc.2 ++ uniques.map (renderExcName builtinsDir) := by
  induction uniques with
  | nil => intro acc; simp [renderExceptions]
  | cons e rest ih =>
    intro acc
    simp only [renderExceptions, List.foldl_cons, List.map_cons] at *
    by_cases hb : e.qualname ∈ builtinsDir
    · rw [if_pos hb]
      rw [ih (acc.1, acc.2 ++ [e.qualname])]
      simp [renderExcName, hb]
    · rw [if_neg hb]
      rw [ih (setAdd acc.1 e.module, acc.2 ++ [_get_qualname e.qualname e.module true])]
      simp [renderExcName, hb]

theorem mem_setAdd_self (s : List String) (x : String) : x ∈ setAdd s x := by
  by_cases h : x ∈ s
  · simpa [setAdd, h]
  · simp [setAdd, h]

theorem mem_setAdd_of_mem (s : List String) (x y : String) (h : x ∈ s) : x ∈ setAdd s y := by
  by_cases hy : y ∈ s
  · simpa [setAdd, hy]
  · simp [setAdd, hy, h]

theorem renderExceptions_fst_mono (builtinsDir : List String) (uniques : List Exc) :
    ∀ (acc : List String × List String) (x : String), x ∈ acc.1 →
      x ∈ (renderExceptions builtinsDir acc uniques).1 := by
  induction uniques with
  | nil => intro acc x hx; simpa [renderExceptions]
  | cons e rest ih =>
    intro acc x hx
    simp only [renderExceptions, List.foldl_cons] at *
    by_cases hb : e.qualname ∈ builtinsDir
    · rw [if_pos hb]
      exact ih (acc.1, acc.2 ++ [e.qualname]) x hx
    · rw [if_neg hb]
      exact ih (setAdd acc.1 e.module, acc.2 ++ [_get_qualname e.qualname e.module true]) x
        (mem_setAdd_of_mem _ _ _ hx)

theorem renderExceptions_module_mem (builtinsDir : List String) (uniques : List Exc) :
    ∀ (acc : List String × List String) (e : Exc), e ∈ uniques → e.qualname ∉ builtinsDir →
      e.module ∈ (renderExceptions builtinsDir acc uniques).1 := by
  induction uniques with
  | nil => intro acc e he; simp at he
  | cons e0 rest ih =>
    intro acc e he hb
    simp only [renderExceptions, List.foldl_cons] at *
    rcases List.mem_cons.mp he with heq | hmem
    · subst heq
      rw [if_neg hb]
      exact renderExceptions_fst_mono builtinsDir rest _ e.module (mem_setAdd_self _ _)
    · by_cases hb0 : e0.qualname ∈ builtinsDir
      · rw [if_pos hb0]
        exact ih _ e hmem hb
      · rw [if_neg hb0]
        exact ih _ e hmem hb

/-- Claim C5: after reduction, one survivor renders as its bare
unparenthesized name and two or more render as a parenthesized
comma-joined tuple; a survivor listed in `dir(builtins)` renders
unqualified, while any other renders fully qualified and contributes its
defining module to the import set. -/
theorem except_clause_rendering (builtinsDir : List String) (sub : Exc → Exc → Bool)
    (except_ : List Exc) (imports0 : List String) :
    (renderExceptions builtinsDir (imports0, []) (reduceExceptions sub except_)).2
      = (reduceExceptions sub except_).map (renderExcName builtinsDir) ∧
    (∀ e, reduceExceptions sub except_ = [e] →
      exceptClause (renderExceptions builtinsDir (imports0, []) (reduceExceptions sub except_)).2
        = some (renderExcName builtinsDir e)) ∧
    (2 ≤ (reduceExceptions sub except_).length →
      exceptClause (renderExceptions builtinsDir (imports0, []) (reduceExceptions sub except_)).2
        = some ("(" ++ String.intercalate ", "
            (renderExceptions builtinsDir (imports0, []) (reduceExceptions sub except_)).2 ++ ")")) ∧
    (∀ e ∈ reduceExceptions sub except_, e.qualname ∈ builtinsDir →
      renderExcName builtinsDir e = e.qualname) ∧
    (∀ e ∈ reduceExceptions sub except_, e.qualname ∉ builtinsDir →
      renderExcName builtinsDir e = _get_qualname e.qualname e.module true ∧
      e.module ∈ (renderExceptions builtinsDir (imports0, []) (reduceExceptions sub except_)).1) := by
  have hsnd := renderExceptions_snd builtinsDir (reduceExceptions sub except_) (imports0, [])
  refine ⟨by simpa using hsnd, fun e he => ?_, fun h2 => ?_, fun e _ hb => ?_, fun e he hb => ?_⟩
  · rw [hsnd, he]
    simp [exceptClause]
  · have hlen : 2 ≤ (renderExceptions builtinsDir (imports0, []) (reduceExceptions sub except_)).2.length := by
      rw [hsnd]
      simpa using h2
    simp only [exceptClause]
    rw [if_pos (by omega)]
  · simp [renderExcName, hb]
  · exact ⟨by simp [renderExcName, hb],
      renderExceptions_module_mem builtinsDir (reduceExceptions sub except_) (imports0, []) e he hb⟩

/-- Witness for C5: one builtin survivor renders bare; a two-survivor set
with one non-builtin renders as a qualified parenthesized tuple and
imports the non-builtin module. -/
theorem except_clause_rendering_witness :
    (renderExceptions ["ValueError", "OSError"] (["m"], [])
        (reduceExceptions (fun a b => a == b) [⟨"ValueError", "builtins"⟩])).2
      = [renderExcName ["ValueError", "OSError"] ⟨"ValueError", "builtins"⟩] ∧
    exceptClause (renderExceptions ["ValueError", "OSError"] (["m"], [])
        (reduceExceptions (fun a b => a == b) [⟨"ValueError", "builtins"⟩])).2
      = some "ValueError" ∧
    exceptClause (renderExceptions ["ValueError", "OSError"] (["m"], [])
        (reduceExceptions (fun a b => a == b)
          [⟨"ValueError", "builtins"⟩, ⟨"UniqueError", "mypkg.errors"⟩])).2
      = some "(ValueError, mypkg.errors.UniqueError)" ∧
    "mypkg.errors" ∈ (renderExceptions ["ValueError", "OSError"] (["m"], [])
        (reduceExceptions (fun a b => a == b)
          [⟨"ValueError", "builtins"⟩, ⟨"UniqueError", "mypkg.errors"⟩])).1 := by
  have h1 := except_clause_rendering ["ValueError", "OSError"] (fun a b => a == b)
    [⟨"ValueError", "builtins"⟩] ["m"]
  have h2 := except_clause_rendering ["ValueError", "OSError"] (fun a b => a == b)
    [⟨"ValueError", "builtins"⟩, ⟨"UniqueError", "mypkg.errors"⟩] ["m"]
  refine ⟨by rw [h1.1]; rfl, ?_, ?_, ?_⟩
  · have := h1.2.1 ⟨"ValueError", "builtins"⟩ rfl
    rw [this]
    rfl
  · have := h2.2.2.1 (by decide)
    rw [this]
    rfl
  · exact (h2.2.2.2.2 ⟨"UniqueError", "mypkg.errors"⟩ (by decide) (by decide)).2

/-- Claim C9: a validated `except_` tuple holding the same exception class
twice reduces to the empty survivor list (each copy is removed on behalf
of the other, `issubclass` being reflexive), and rendering the
except-clause then hits `exceptions[0]` on an empty list, so
`_make_test_body` fails (returns `none`) instead of producing a
suppression wrapper. -/
theorem duplicate_exception_empties_and_crashes :
    reduceExceptions (fun a b => a == b)
      [⟨"ValueError", "builtins"⟩, ⟨"ValueError", "builtins"⟩] = [] ∧
    exceptClause (renderExceptions ["ValueError"] ([], [])
      (reduceExceptions (fun a b => a == b)
        [⟨"ValueError", "builtins"⟩, ⟨"ValueError", "builtins"⟩])).2 = none ∧
    _make_test_body (fun _ => true) [] ["ValueError"] (fun a b => a == b)
      [⟨"f", "m", [⟨"x", .positionalOrKeyword, .empty, .boolVal true⟩]⟩] "fuzz" "m.f(x=x)"
      [⟨"ValueError", "builtins"⟩, ⟨"ValueError", "builtins"⟩] .pytest = none := by
  refine ⟨rfl, rfl, rfl⟩

/-! ## Claim about strategy merging (C1) -/

theorem mergeStep_is_insert (d : List (String × Strategy)) (kv : String × Strategy) :
    ∃ v, mergeStep d kv = insertKV d kv.1 v := by
  cases h : lookupKV kv.1 d with
  | none => exact ⟨kv.2, by simp only [mergeStep, h]⟩
  | some old =>
    by_cases hne : old.render ≠ kv.2.render
    · exact ⟨orStrat old kv.2, by simp only [mergeStep, h]; rw [if_pos hne]⟩
    · exact ⟨kv.2, by simp only [mergeStep, h]; rw [if_neg hne]⟩

theorem mergeStep_fresh (d : List (String × Strategy)) (kv : String × Strategy)
    (h : lookupKV kv.1 d = none) : mergeStep d kv = insertKV d kv.1 kv.2 := by
  simp only [mergeStep, h]

theorem map_fst_strategyPairs (ps : List (String × Param)) :
    (ps.map (fun kv => (kv.1, flattenTop (buildsResolve kv.2)))).map Prod.fst
      = ps.map Prod.fst := by
  induction ps with
  | nil => rfl
  | cons kv rest ih => simp [ih]

theorem keys_strategyPairs (f : Func) :
    (strategyPairs f).map Prod.fst = (_get_params f).map Prod.fst :=
  map_fst_strategyPairs _

theorem funcPairs_false (i : Nat) (f : Func) :
    funcPairs false i f = some (strategyPairs f) := by
  simp [funcPairs]

theorem funcPairs_not_first (passResult : Bool) (f : Func) :
    funcPairs passResult 0 f = some (strategyPairs f) := by
  simp [funcPairs]

theorem funcPairs_pipe_drop (i : Nat) (f : Func) (hi : 1 ≤ i)
    (hne : _get_params f ≠ []) :
    funcPairs true i f = some ((strategyPairs f).tail) := by
  cases h : _get_params f with
  | nil => exact absurd h hne
  | cons kv tl => simp [funcPairs, strategyPairs, h, hi]

theorem collectPairs_false : ∀ (l : List (Nat × Func)),
    collectPairs false l = some (l.flatMap (fun p => strategyPairs p.2)) := by
  intro l
  induction l with
  | nil => rfl
  | cons p rest ih => simp [collectPairs, funcPairs_false, ih]

theorem collectPairs_pipeline : ∀ (l : List (Nat × Func)),
    (∀ p ∈ l, 1 ≤ p.1 → _get_params p.2 ≠ []) →
    collectPairs true l = some (l.flatMap (fun p =>
      if 1 ≤ p.1 then (strategyPairs p.2).tail else strategyPairs p.2)) := by
  intro l
  induction l with
  | nil => intro _; rfl
  | cons p rest ih =>
    intro h
    have hrest := ih (fun q hq => h q (List.mem_cons_of_mem _ hq))
    by_cases hi : 1 ≤ p.1
    · have hp := funcPairs_pipe_drop p.1 p.2 hi (h p (List.mem_cons_self _ _) hi)
      simp [collectPairs, hp, hrest, hi]
    · have hp : funcPairs true p.1 p.2 = some (strategyPairs p.2) := by
        simp [funcPairs, hi]
      simp [collectPairs, hp, hrest, hi]

theorem get_strategiesE_some (passResult : Bool) (funcs : List Func)
    (pairs : List (String × Strategy))
    (hc : collectPairs passResult funcs.enum = some pairs) :
    _get_strategiesE passResult funcs = some (strategiesFromPairs funcs pairs) := by
  simp [_get_strategiesE, hc]

theorem get_strategies_of_collect (passResult : Bool) (funcs : List Func)
    (pairs : List (String × Strategy))
    (hc : collectPairs passResult funcs.enum = some pairs) :
    _get_strategies passResult funcs = strategiesFromPairs funcs pairs := by
  simp [_get_strategies, get_strategiesE_some passResult funcs pairs hc]

theorem strategiesFromPairs_multi (funcs : List Func) (h : funcs.length ≠ 1)
    (pairs : List (String × Strategy)) :
    strategiesFromPairs funcs pairs = sortPairs (pairs.foldl mergeStep []) := by
  cases funcs with
  | nil => rfl
  | cons f rest =>
    cases rest with
    | nil => exact absurd rfl h
    | cons g rest2 => rfl

theorem keys_getParams (f : Func) :
    (_get_params f).map Prod.fst =
      dedupNew [] ((f.params.filter (fun p => ¬ isVarKind p.kind)).map Param.name) := by
  have := keys_foldl_insertLike (fun d p => insertKV d p.name p) Param.name
    (fun d p => ⟨p, rfl⟩) (f.params.filter (fun p => ¬ isVarKind p.kind)) []
  simpa [_get_params] using this

theorem nodup_keys_getParams (f : Func) : ((_get_params f).map Prod.fst).Nodup := by
  rw [keys_getParams]
  exact dedupNew_nodup _ _

theorem keys_merged (pairs : List (String × Strategy)) :
    ((pairs.foldl mergeStep []).map Prod.fst) = dedupNew [] (pairs.map Prod.fst) := by
  simpa using keys_foldl_insertLike mergeStep Prod.fst mergeStep_is_insert pairs []

theorem nodup_keys_merged (pairs : List (String × Strategy)) :
    ((pairs.foldl mergeStep []).map Prod.fst).Nodup := by
  rw [keys_merged]
  exact dedupNew_nodup _ _

theorem lookup_foldl_merge_conflict (d : List (String × Strategy))
    (l1 l2 : List (String × Strategy)) (k : String) (v old : Strategy)
    (hold : lookupKV k d = some old) (h1 : k ∉ l1.map Prod.fst) (h2 : k ∉ l2.map Prod.fst)
    (hne : old.render ≠ v.render) :
    lookupKV k ((l1 ++ (k, v) :: l2).foldl mergeStep d) = some (orStrat old v) := by
  rw [List.foldl_append]
  have hl1 : lookupKV k (l1.foldl mergeStep d) = some old := by
    rw [lookup_foldl_insertLike_not_mem mergeStep Prod.fst mergeStep_is_insert l1 d k h1]
    exact hold
  simp only [List.foldl_cons]
  have hstep : mergeStep (l1.foldl mergeStep d) (k, v)
      = insertKV (l1.foldl mergeStep d) k (orStrat old v) := by
    simp only [mergeStep, hl1]
    rw [if_pos hne]
  rw [hstep, lookup_foldl_insertLike_not_mem mergeStep Prod.fst mergeStep_is_insert l2 _ k h2,
    lookupKV_insertKV_self]

theorem elements_of_not_union (s : Strategy) (h : s.isUnion = false) : s.elements = [s] := by
  cases s <;> simp_all [Strategy.elements, Strategy.isUnion]

/-- Claim C1: when two callables share a parameter name and the second
one's resolved strategy has a different canonical text than the recorded
one, the Given-Spec entry for that name is the flattened union of the two:
its element list is exactly the two originals (each contributing its text
once) with no nested union among the elements, and its canonical text is
the single flat `one_of` of the two texts. -/
theorem merge_conflict_flattened_union (f g : Func) (k : String) (pf pg : Param)
    (s1 s2 : Strategy)
    (hf : lookupKV k (_get_params f) = some pf)
    (hg : lookupKV k (_get_params g) = some pg)
    (hs1 : s1 = flattenTop (buildsResolve pf))
    (hs2 : s2 = flattenTop (buildsResolve pg))
    (hu1 : s1.isUnion = false) (hu2 : s2.isUnion = false)
    (hdiff : s1.render ≠ s2.render) :
    lookupKV k (_get_strategies false [f, g]) = some (Strategy.oneOf [s1, s2]) ∧
    (Strategy.oneOf [s1, s2]).render = "one_of(" ++ s1.render ++ ", " ++ s2.render ++ ")" ∧
    ∀ e ∈ (Strategy.oneOf [s1, s2]).elements, e.isUnion = false := by
  have hc : collectPairs false ([f, g].enum) = some (strategyPairs f ++ strategyPairs g) := by
    rw [collectPairs_false]
    simp [List.enum, List.enumFrom]
  have hkeysF : (strategyPairs f).map Prod.fst = (_get_params f).map Prod.fst :=
    keys_strategyPairs f
  have hkeysG : (strategyPairs g).map Prod.fst = (_get_params g).map Prod.fst :=
    keys_strategyPairs g
  -- membership of the two (name, strategy) pairs
  have hmemF : (k, s1) ∈ strategyPairs f := by
    simp only [strategyPairs]
    exact hs1 ▸ List.mem_map.mpr ⟨(k, pf), lookupKV_eq_some_mem _ _ _ hf, rfl⟩
  have hmemG : (k, s2) ∈ strategyPairs g := by
    simp only [strategyPairs]
    exact hs2 ▸ List.mem_map.mpr ⟨(k, pg), lookupKV_eq_some_mem _ _ _ hg, rfl⟩
  -- after folding the first function, the entry holds s1
  have hndF : ((strategyPairs f).map Prod.fst).Nodup := by
    rw [hkeysF]
    exact nodup_keys_getParams f
  have hndG : ((strategyPairs g).map Prod.fst).Nodup := by
    rw [hkeysG]
    exact nodup_keys_getParams g
  have hstage1 : lookupKV k ((strategyPairs f).foldl mergeStep []) = some s1 := by
    have := lookup_foldl_insertLike_fresh mergeStep Prod.fst Prod.snd mergeStep_is_insert
      (fun d kv h => mergeStep_fresh d kv h) (strategyPairs f) [] (k, s1) hndF hmemF rfl
    simpa using this
  -- split the second function's pairs around the shared name
  obtain ⟨l1, l2, hsplit⟩ := List.append_of_mem hmemG
  have hknotl1 : k ∉ l1.map Prod.fst ∧ k ∉ l2.map Prod.fst := by
    have hnd := hndG
    rw [hsplit] at hnd
    simp only [List.map_append, List.map_cons, List.nodup_append] at hnd
    obtain ⟨hnd1, hnd2, hdisj⟩ := hnd
    refine ⟨fun hk => ?_, fun hk => ?_⟩
    · exact hdisj hk (List.mem_cons_self _ _)
    · exact (List.nodup_cons.mp hnd2).1 hk
  have hgiven : lookupKV k ((strategyPairs f ++ strategyPairs g).foldl mergeStep [])
      = some (orStrat s1 s2) := by
    rw [List.foldl_append, hsplit]
    exact lookup_foldl_merge_conflict _ l1 l2 k s2 s1 hstage1 hknotl1.1 hknotl1.2 hdiff
  -- the final Given-Spec is the sorted dict; sorting preserves the entry
  have hfinal : lookupKV k (_get_strategies false [f, g]) = some (orStrat s1 s2) := by
    rw [get_strategies_of_collect false [f, g] _ hc,
      strategiesFromPairs_multi [f, g] (by simp) _]
    have hperm : (((strategyPairs f ++ strategyPairs g)).foldl mergeStep []).Perm
        (sortPairs (((strategyPairs f ++ strategyPairs g)).foldl mergeStep [])) :=
      (List.perm_insertionSort _ _).symm
    have heq := lookupKV_perm _ _ k (nodup_keys_merged _) hperm
    rw [← heq]
    exact hgiven
  have horflat : orStrat s1 s2 = Strategy.oneOf [s1, s2] := by
    simp [orStrat, elements_of_not_union s1 hu1, elements_of_not_union s2 hu2]
  refine ⟨horflat ▸ hfinal, ?_, ?_⟩
  · simp only [Strategy.render, Strategy.renderList]
    rw [show String.intercalate ", " [s1.render, s2.render]
      = s1.render ++ ", " ++ s2.render from rfl]
    simp [String.append_assoc]
  · intro e he
    simp only [Strategy.elements, Strategy.elementsList,
      elements_of_not_union s1 hu1, elements_of_not_union s2 hu2] at he
    simp only [List.append_nil, List.cons_append, List.nil_append, List.mem_cons,
      List.mem_singleton] at he
    rcases he with h | h
    · rw [h]; exact hu1
    · rcases h with h | h
      · rw [h]; exact hu2
      · simp at h

/-- Witness for C1: two callables sharing parameter `x` with the distinct
default-value strategies `just(1)` and `just(2)`. -/
theorem merge_conflict_flattened_union_witness :
    lookupKV "x" (_get_strategies false
      [⟨"f1", "m", [⟨"x", .positionalOrKeyword, .empty, .otherVal "1"⟩]⟩,
       ⟨"f2", "m", [⟨"x", .positionalOrKeyword, .empty, .otherVal "2"⟩]⟩])
      = some (Strategy.oneOf [Strategy.just "1", Strategy.just "2"]) ∧
    (Strategy.oneOf [Strategy.just "1", Strategy.just "2"]).render
      = "one_of(" ++ (Strategy.just "1").render ++ ", " ++ (Strategy.just "2").render ++ ")" ∧
    ∀ e ∈ (Strategy.oneOf [Strategy.just "1", Strategy.just "2"]).elements,
      e.isUnion = false :=
  merge_conflict_flattened_union
    ⟨"f1", "m", [⟨"x", .positionalOrKeyword, .empty, .otherVal "1"⟩]⟩
    ⟨"f2", "m", [⟨"x", .positionalOrKeyword, .empty, .otherVal "2"⟩]⟩
    "x" ⟨"x", .positionalOrKeyword, .empty, .otherVal "1"⟩
    ⟨"x", .positionalOrKeyword, .empty, .otherVal "2"⟩
    (Strategy.just "1") (Strategy.just "2") rfl rfl rfl rfl rfl rfl (by decide)

/-! ## Claim about pipeline mode and Given-Spec ordering (C7) -/

/-- The parameter names contributed to strategy generation in pipeline
mode: every callable after the first loses its first (non-vararg)
parameter. -/
def pipelineNames (funcs : List Func) : List String :=
  funcs.enum.flatMap (fun p =>
    if 1 ≤ p.1 then ((_get_params p.2).map Prod.fst).tail
    else (_get_params p.2).map Prod.fst)

theorem pipeline_flat_keys (funcs : List Func) :
    ((funcs.enum.flatMap (fun p =>
      if 1 ≤ p.1 then (strategyPairs p.2).tail else strategyPairs p.2)).map Prod.fst)
      = pipelineNames funcs := by
  rw [List.map_flatMap]
  simp only [pipelineNames]
  refine List.flatMap_congr ?_
  intro p _
  by_cases hi : 1 ≤ p.1
  · simp [hi, List.map_tail, keys_strategyPairs]
  · simp [hi, keys_strategyPairs]

theorem keys_filterMap_lookup {α : Type} (ps : List (String × Param))
    (given : List (String × α)) (h : ∀ kv ∈ ps, kv.1 ∈ given.map Prod.fst) :
    ((ps.filterMap (fun kv => (lookupKV kv.1 given).map (fun v => (kv.1, v)))).map Prod.fst)
      = ps.map Prod.fst := by
  induction ps with
  | nil => rfl
  | cons kv rest ih =>
    obtain ⟨v, hv⟩ : ∃ v, lookupKV kv.1 given = some v :=
      Option.isSome_iff_exists.mp
        ((lookupKV_isSome_iff given kv.1).mpr (h kv (List.mem_cons_self _ _)))
    simp [List.filterMap_cons, hv, ih (fun q hq => h q (List.mem_cons_of_mem _ hq))]

/-- Claim C7: on every pipeline batch where the drop of line 166 does not
raise — every callable after the first has a non-vararg parameter — the
checked computation succeeds (it returns `none` exactly where the Python
raises `StopIteration`), the first parameter of every callable after the
first is dropped from strategy generation — the Given-Spec's keys are
exactly the first-occurrence deduplication of the remaining parameter
names — and the result is sorted lexicographically by parameter name
unless exactly one callable participates, in which case its declared
(non-vararg) parameter order is preserved. -/
theorem pipeline_drops_first_and_orders (funcs : List Func)
    (hparams : ∀ p ∈ funcs.enum, 1 ≤ p.1 → _get_params p.2 ≠ []) :
    (_get_strategiesE true funcs).isSome = true ∧
    (funcs.length ≠ 1 →
      ((_get_strategies true funcs).map Prod.fst).Perm (dedupNew [] (pipelineNames funcs)) ∧
      ((_get_strategies true funcs).map Prod.fst).Pairwise (fun a b => strLe a b = true)) ∧
    (∀ f, funcs = [f] →
      (_get_strategies true funcs).map Prod.fst = (_get_params f).map Prod.fst) := by
  have hc := collectPairs_pipeline funcs.enum hparams
  have hG := get_strategies_of_collect true funcs _ hc
  refine ⟨by rw [get_strategiesE_some true funcs _ hc]; rfl, ?_, ?_⟩
  · intro h
    rw [hG, strategiesFromPairs_multi funcs h]
    constructor
    · have hp : (sortPairs ((funcs.enum.flatMap (fun p =>
          if 1 ≤ p.1 then (strategyPairs p.2).tail else strategyPairs p.2)).foldl mergeStep [])).Perm
          ((funcs.enum.flatMap (fun p =>
            if 1 ≤ p.1 then (strategyPairs p.2).tail else strategyPairs p.2)).foldl mergeStep []) :=
        List.perm_insertionSort _ _
      have hkeys := keys_merged (funcs.enum.flatMap (fun p =>
        if 1 ≤ p.1 then (strategyPairs p.2).tail else strategyPairs p.2))
      rw [pipeline_flat_keys] at hkeys
      exact (hp.map Prod.fst).trans (hkeys ▸ List.Perm.refl _)
    · have hs : List.Sorted (fun a b => strLe a.1 b.1 = true)
          (sortPairs ((funcs.enum.flatMap (fun p =>
            if 1 ≤ p.1 then (strategyPairs p.2).tail else strategyPairs p.2)).foldl mergeStep [])) :=
        List.sorted_insertionSort _ _
      exact List.Pairwise.map Prod.fst (fun a b hab => hab) hs
  · intro f hf
    subst hf
    have hc1 : collectPairs true ([f].enum) = some (strategyPairs f) := by
      simp [List.enum, List.enumFrom, collectPairs, funcPairs]
    rw [get_strategies_of_collect true [f] _ hc1]
    rw [show strategiesFromPairs [f] (strategyPairs f) =
      (_get_params f).filterMap (fun kv =>
        (lookupKV kv.1 ((strategyPairs f).foldl mergeStep [])).map (fun v => (kv.1, v)))
      from rfl]
    refine keys_filterMap_lookup _ _ (fun kv hkv => ?_)
    rw [keys_merged, keys_strategyPairs]
    exact mem_dedupNew_of_mem _ _ _ (List.mem_map.mpr ⟨kv, hkv, rfl⟩) (by simp)

/-- Witness for C7: a two-callable pipeline whose second callable loses
its first parameter (the checked computation succeeding), and a single
callable keeping declared order. -/
theorem pipeline_drops_first_and_orders_witness :
    (_get_strategiesE true
      [⟨"g1", "m", [⟨"b", .positionalOrKeyword, .empty, .otherVal "1"⟩,
                    ⟨"a", .positionalOrKeyword, .empty, .otherVal "2"⟩]⟩,
       ⟨"g2", "m", [⟨"r", .positionalOrKeyword, .empty, .empty⟩,
                    ⟨"c", .positionalOrKeyword, .empty, .otherVal "3"⟩]⟩]).isSome = true ∧
    ((_get_strategies true
      [⟨"g1", "m", [⟨"b", .positionalOrKeyword, .empty, .otherVal "1"⟩,
                    ⟨"a", .positionalOrKeyword, .empty, .otherVal "2"⟩]⟩,
       ⟨"g2", "m", [⟨"r", .positionalOrKeyword, .empty, .empty⟩,
                    ⟨"c", .positionalOrKeyword, .empty, .otherVal "3"⟩]⟩]).map Prod.fst).Perm
      (dedupNew [] (pipelineNames
        [⟨"g1", "m", [⟨"b", .positionalOrKeyword, .empty, .otherVal "1"⟩,
                      ⟨"a", .positionalOrKeyword, .empty, .otherVal "2"⟩]⟩,
         ⟨"g2", "m", [⟨"r", .positionalOrKeyword, .empty, .empty⟩,
                      ⟨"c", .positionalOrKeyword, .empty, .otherVal "3"⟩]⟩])) ∧
    ((_get_strategies true
      [⟨"g1", "m", [⟨"b", .positionalOrKeyword, .empty, .otherVal "1"⟩,
                    ⟨"a", .positionalOrKeyword, .empty, .otherVal "2"⟩]⟩,
       ⟨"g2", "m", [⟨"r", .positionalOrKeyword, .empty, .empty⟩,
                    ⟨"c", .positionalOrKeyword, .empty, .otherVal "3"⟩]⟩]).map Prod.fst).Pairwise
      (fun a b => strLe a b = true) ∧
    (_get_strategies true
      [⟨"g1", "m", [⟨"b", .positionalOrKeyword, .empty, .otherVal "1"⟩,
                    ⟨"a", .positionalOrKeyword, .empty, .otherVal "2"⟩]⟩]).map Prod.fst
      = (_get_params ⟨"g1", "m", [⟨"b", .positionalOrKeyword, .empty, .otherVal "1"⟩,
                    ⟨"a", .positionalOrKeyword, .empty, .otherVal "2"⟩]⟩).map Prod.fst :=
  ⟨(pipeline_drops_first_and_orders _ (by decide)).1,
   ((pipeline_drops_first_and_orders _ (by decide)).2.1 (by decide)).1,
   ((pipeline_drops_first_and_orders _ (by decide)).2.1 (by decide)).2,
   (pipeline_drops_first_and_orders _ (by decide)).2.2 _ rfl⟩

/-! ## Claim about `magic` batch behaviour (C4) -/

/-- The deduplicated callables of a `magic` batch, keyed and sorted by
display name. -/
def magicSortedByName (funcs : List Func) : List (String × Func) :=
  sortPairs (funcs.dedup.map (fun f => (_get_qualname f.name f.module false, f)))

/-- The import set and test-unit list `magic` assembles on the success
path: one fuzz unit per callable, in display-name order. -/
def magicExpected (compilesOk : String → Bool) (stAll builtinsDir : List String)
    (sub : Exc → Exc → Bool) (funcs : List Func) (except_ : List Exc) (style : Style) :
    List String × List String :=
  (magicSortedByName funcs).foldl
    (fun acc nf =>
      (((magicUnit compilesOk stAll builtinsDir sub except_ style nf.2).getD ([], "")).1.foldl
          setAdd acc.1,
       acc.2 ++ [((magicUnit compilesOk stAll builtinsDir sub except_ style nf.2).getD ([], "")).2]))
    ([], [])

theorem foldlM_units_ok (unit : Func → Option (List String × String)) :
    ∀ (l : List (String × Func)) (acc : List String × List String),
      (∀ nf ∈ l, (unit nf.2).isSome = true) →
      (l.foldlM (fun acc nf =>
        match unit nf.2 with
        | some ib => Except.ok (ib.1.foldl setAdd acc.1, acc.2 ++ [ib.2])
        | none => Except.error "IndexError") acc
        : Except String (List String × List String))
      = .ok (l.foldl (fun acc nf =>
          (((unit nf.2).getD ([], "")).1.foldl setAdd acc.1,
           acc.2 ++ [((unit nf.2).getD ([], "")).2])) acc) := by
  intro l
  induction l with
  | nil => intro acc _; rfl
  | cons nf rest ih =>
    intro acc h
    obtain ⟨ib, hib⟩ := Option.isSome_iff_exists.mp (h nf (List.mem_cons_self _ _))
    simp only [List.foldlM_cons, hib]
    rw [show ((Except.ok (ib.1.foldl setAdd acc.1, acc.2 ++ [ib.2])
        : Except String (List String × List String)) >>= fun b =>
        rest.foldlM _ b) = rest.foldlM _ (ib.1.foldl setAdd acc.1, acc.2 ++ [ib.2]) from rfl]
    rw [ih _ (fun q hq => h q (List.mem_cons_of_mem _ hq))]
    simp [hib]

theorem unitsFold_parts (unit : Func → Option (List String × String)) :
    ∀ (l : List (String × Func)) (acc : List String × List String),
      (l.foldl (fun acc nf =>
          (((unit nf.2).getD ([], "")).1.foldl setAdd acc.1,
           acc.2 ++ [((unit nf.2).getD ([], "")).2])) acc).2
      = acc.2 ++ l.map (fun nf => ((unit nf.2).getD ([], "")).2) := by
  intro l
  induction l with
  | nil => intro acc; simp
  | cons nf rest ih =>
    intro acc
    simp only [List.foldl_cons, List.map_cons]
    rw [ih]
    simp

/-- Claim C4: over a non-empty batch of callables, `magic` fails with the
invalid-argument error and produces no output when two callables share a
display name; when all display names are unique (and every unit renders,
which the empty exception set guarantees) it succeeds with exactly one
fuzz unit per callable, listed in lexicographic display-name order. -/
theorem magic_unique_names_and_order (compilesOk : String → Bool)
    (stAll builtinsDir : List String) (sub : Exc → Exc → Bool) (funcs : List Func)
    (except_ : List Exc) (style : Style) :
    (funcs ≠ [] →
      ¬ (funcs.dedup.map (fun f => _get_qualname f.name f.module false)).Nodup →
      magicCore compilesOk stAll builtinsDir sub funcs except_ style
        = .error "Functions to magic() test must have unique names" ∧
      magic compilesOk stAll builtinsDir sub funcs except_ style
        = .error "Functions to magic() test must have unique names") ∧
    (funcs ≠ [] →
      (funcs.dedup.map (fun f => _get_qualname f.name f.module false)).Nodup →
      (∀ f ∈ funcs.dedup,
        (magicUnit compilesOk stAll builtinsDir sub except_ style f).isSome = true) →
      magicCore compilesOk stAll builtinsDir sub funcs except_ style
        = .ok (magicExpected compilesOk stAll builtinsDir sub funcs except_ style) ∧
      (magicExpected compilesOk stAll builtinsDir sub funcs except_ style).2
        = (magicSortedByName funcs).map (fun nf =>
            ((magicUnit compilesOk stAll builtinsDir sub except_ style nf.2).getD ([], "")).2) ∧
      (magicExpected compilesOk stAll builtinsDir sub funcs except_ style).2.length
        = funcs.dedup.length ∧
      ((magicSortedByName funcs).map Prod.fst).Pairwise (fun a b => strLe a b = true)) := by
  have hkeysByName : (funcs.dedup.foldl
        (fun d f => insertKV d (_get_qualname f.name f.module false) f) []).map Prod.fst
      = dedupNew [] (funcs.dedup.map (fun f => _get_qualname f.name f.module false)) := by
    simpa using keys_foldl_insertLike
      (fun d f => insertKV d (_get_qualname f.name f.module false) f)
      (fun f => _get_qualname f.name f.module false) (fun d f => ⟨f, rfl⟩) funcs.dedup []
  have hlenByName : (funcs.dedup.foldl
        (fun d f => insertKV d (_get_qualname f.name f.module false) f) []).length
      = (dedupNew [] (funcs.dedup.map (fun f => _get_qualname f.name f.module false))).length := by
    rw [← hkeysByName, List.length_map]
  constructor
  · intro hne hdup
    have hempty : funcs.isEmpty = false := by
      cases funcs with
      | nil => exact absurd rfl hne
      | cons a l => rfl
    have hlt : (funcs.dedup.foldl
          (fun d f => insertKV d (_get_qualname f.name f.module false) f) []).length
        < funcs.dedup.length := by
      rw [hlenByName]
      have := dedupNew_length_lt_of_dup []
        (funcs.dedup.map (fun f => _get_qualname f.name f.module false)) hdup
      simpa [List.length_map] using this
    have hcore : magicCore compilesOk stAll builtinsDir sub funcs except_ style
        = .error "Functions to magic() test must have unique names" := by
      simp only [magicCore]
      rw [if_neg (by simp [hempty]), if_pos hlt]
    exact ⟨hcore, by simp only [magic, hcore]; rfl⟩
  · intro hne hnd hok
    have hempty : funcs.isEmpty = false := by
      cases funcs with
      | nil => exact absurd rfl hne
      | cons a l => rfl
    have hnlt : ¬ ((funcs.dedup.foldl
          (fun d f => insertKV d (_get_qualname f.name f.module false) f) []).length
        < funcs.dedup.length) := by
      rw [hlenByName, dedupNew_of_nodup [] _ hnd (by simp), List.length_map]
      exact Nat.lt_irrefl _
    have hByName : funcs.dedup.foldl
          (fun d f => insertKV d (_get_qualname f.name f.module false) f) []
        = funcs.dedup.map (fun f => (_get_qualname f.name f.module false, f)) := by
      simpa using foldl_insertKV_of_fresh
        (fun f => _get_qualname f.name f.module false) (fun f => f) funcs.dedup [] hnd
        (by simp)
    have hmemsort : ∀ nf ∈ magicSortedByName funcs,
        (magicUnit compilesOk stAll builtinsDir sub except_ style nf.2).isSome = true := by
      intro nf hnf
      have hmem : nf ∈ funcs.dedup.map (fun f => (_get_qualname f.name f.module false, f)) :=
        (List.perm_insertionSort _ _).mem_iff.mp hnf
      obtain ⟨f, hf, hnf2⟩ := List.mem_map.mp hmem
      have : nf.2 = f := by rw [← hnf2]
      rw [this]
      exact hok f hf
    have hcore : magicCore compilesOk stAll builtinsDir sub funcs except_ style
        = .ok (magicExpected compilesOk stAll builtinsDir sub funcs except_ style) := by
      simp only [magicCore]
      rw [if_neg (by simp [hempty]), if_neg hnlt, hByName]
      exact foldlM_units_ok _ _ _ hmemsort
    refine ⟨hcore, by simpa using unitsFold_parts _ (magicSortedByName funcs) ([], []), ?_, ?_⟩
    · rw [show (magicExpected compilesOk stAll builtinsDir sub funcs except_ style).2
        = (magicSortedByName funcs).map (fun nf =>
            ((magicUnit compilesOk stAll builtinsDir sub except_ style nf.2).getD ([], "")).2)
        from by simpa using unitsFold_parts _ (magicSortedByName funcs) ([], [])]
      rw [List.length_map]
      have h1 : (magicSortedByName funcs).length
          = (funcs.dedup.map (fun f => (_get_qualname f.name f.module false, f))).length :=
        (List.perm_insertionSort _ _).length_eq
      rw [h1, List.length_map]
    · have hs : List.Sorted (fun a b => strLe a.1 b.1 = true) (magicSortedByName funcs) :=
        List.sorted_insertionSort _ _
      exact List.Pairwise.map Prod.fst (fun a b hab => hab) hs

/-- Witness for C4: two distinct callables sharing the display name `f`
make `magic` fail; two callables named `b` and `a` succeed with units in
sorted name order. -/
theorem magic_unique_names_and_order_witness :
    magicCore (fun _ => true) [] [] (fun a b => a == b)
      [⟨"f", "m1", []⟩, ⟨"f", "m2", []⟩] [] .pytest
      = .error "Functions to magic() test must have unique names" ∧
    magicCore (fun _ => true) [] [] (fun a b => a == b)
      [⟨"b", "m", [⟨"x", .positionalOrKeyword, .empty, .boolVal true⟩]⟩,
       ⟨"a", "m", [⟨"x", .positionalOrKeyword, .empty, .boolVal true⟩]⟩] [] .pytest
      = .ok (magicExpected (fun _ => true) [] [] (fun a b => a == b)
          [⟨"b", "m", [⟨"x", .positionalOrKeyword, .empty, .boolVal true⟩]⟩,
           ⟨"a", "m", [⟨"x", .positionalOrKeyword, .empty, .boolVal true⟩]⟩] [] .pytest) ∧
    ((magicSortedByName
        [⟨"b", "m", [⟨"x", .positionalOrKeyword, .empty, .boolVal true⟩]⟩,
         ⟨"a", "m", [⟨"x", .positionalOrKeyword, .empty, .boolVal true⟩]⟩]).map
      Prod.fst).Pairwise (fun a b => strLe a b = true) :=
  ⟨((magic_unique_names_and_order (fun _ => true) [] [] (fun a b => a == b)
      [⟨"f", "m1", []⟩, ⟨"f", "m2", []⟩] [] .pytest).1 (by decide) (by decide)).1,
   ((magic_unique_names_and_order (fun _ => true) [] [] (fun a b => a == b)
      [⟨"b", "m", [⟨"x", .positionalOrKeyword, .empty, .boolVal true⟩]⟩,
       ⟨"a", "m", [⟨"x", .positionalOrKeyword, .empty, .boolVal true⟩]⟩] [] .pytest).2
      (by decide) (by decide) (by decide)).1,
   ((magic_unique_names_and_order (fun _ => true) [] [] (fun a b => a == b)
      [⟨"b", "m", [⟨"x", .positionalOrKeyword, .empty, .boolVal true⟩]⟩,
       ⟨"a", "m", [⟨"x", .positionalOrKeyword, .empty, .boolVal true⟩]⟩] [] .pytest).2
      (by decide) (by decide) (by decide)).2.2.2⟩

-- Quick sanity examples (definitions compute).
example : _strategy_for ⟨"index", .positionalOrKeyword, .empty, .empty⟩ = .integersMin 0 := rfl
example : _strategy_for ⟨"Index", .positionalOrKeyword, .empty, .empty⟩ = .nothing := rfl
example : _strategy_for ⟨"big_string", .positionalOrKeyword, .empty, .empty⟩ = .text := rfl
example : _strategy_for ⟨"string_as_x", .positionalOrKeyword, .empty, .empty⟩ = .nothing := rfl
example : _strategy_for ⟨"x", .positionalOrKeyword, .type "int", .boolVal true⟩ = .infer := rfl
example : _strategy_for ⟨"x", .positionalOrKeyword, .empty, .boolVal true⟩ = .booleans := rfl
example : strLe "abc" "abd" = true := rfl
example : sortStrings ["b", "a"] = ["a", "b"] := rfl
